import Mathlib

/-
Verification of the pair-trading engine (pair_finder.py, visualizer.py, app.py)
against its natural-language specification.

Modelling conventions:
- Prices, returns, thresholds and statistics are rationals; the sources use
  floating point, which we idealise as exact arithmetic.
- Transcendental library routines (numpy sqrt, numpy log) are abstracted as
  explicit function parameters of type Q -> Q; every theorem either holds for
  all such parameters or constrains them by hypothesis.
- Pandas NaN cells are modelled with Option: none stands for NaN.
- Calls into statsmodels / sklearn (coint, coint_johansen, the spread OLS
  block) are external library computations; a call is modelled as an
  Option-valued input where none stands for a raised exception, mirroring
  the try/except blocks wrapping each call in pair_finder.py.
-/

set_option allowUnsafeReducibility true in
attribute [semireducible] Rat.add Rat.mul Rat.inv Rat.sub Rat.div Rat.neg

namespace PairTrading

/-- Sum of a list of rationals. -/
def sumQ (l : List ℚ) : ℚ := l.foldr (fun x s => x + s) 0

/-- Arithmetic mean of a list of rationals, as numpy mean computes it. -/
def meanQ (l : List ℚ) : ℚ := sumQ l / (l.length : ℚ)

/-- Population variance (numpy std squared, ddof = 0). -/
def popVarQ (l : List ℚ) : ℚ :=
  sumQ (l.map (fun x => (x - meanQ l) ^ 2)) / (l.length : ℚ)

/-- Sample variance (pandas std squared, ddof = 1). -/
def sampleVarQ (l : List ℚ) : ℚ :=
  sumQ (l.map (fun x => (x - meanQ l) ^ 2)) / ((l.length : ℚ) - 1)

/-- Count of elements satisfying a Boolean predicate. -/
def countQ (p : α → Bool) (l : List α) : ℕ := (l.filter p).length

/-- Running product of (the list already holds the factors), as cumprod. -/
def cumprod (l : List ℚ) : List ℚ :=
  (l.foldl (fun (st : ℚ × List ℚ) x =>
    (st.1 * x, st.2 ++ [st.1 * x])) (1, [])).2

/-- Last element of a list with a default, as iloc[-1]. -/
def lastD (l : List ℚ) (d : ℚ) : ℚ := l.getLastD d

/- ----------------------------------------------------------------------
   Part 1: pair_finder.py (PairFinder)
   ---------------------------------------------------------------------- -/

/-- Result record of PairFinder._engle_granger_test: statistic (none models
the NaN of the failure branch), p-value, and the cointegration flag. -/
structure EGRes where
  stat : Option ℚ
  p : ℚ
  isCoint : Bool
deriving DecidableEq

/-- Embedding of PairFinder._engle_granger_test (pair_finder.py 176-200).
The statsmodels coint call is the rawResult argument: some (score, pvalue) for
a normal return, none for a raised exception, which the except branch turns
into the sentinel record (statistic NaN, p-value 1.0, not cointegrated). -/
def egTestRun (thr : ℚ) (rawResult : Option (ℚ × ℚ)) : EGRes :=
  match rawResult with
  | some (score, pv) => { stat := some score, p := pv, isCoint := pv < thr }
  | none => { stat := none, p := 1, isCoint := false }

/-- Result record of PairFinder._johansen_test: trace statistic, 5 percent
critical value (none models NaN), cointegration flag, proxy p-value. -/
structure JohRes where
  traceStat : Option ℚ
  critValue : Option ℚ
  isCoint : Bool
  p : ℚ
deriving DecidableEq

/-- Embedding of PairFinder._johansen_test (pair_finder.py 202-237). The
coint_johansen call is the rawResult argument: some (traceStat, critValue)
for a normal return, none for a raised exception. On success the flag is
traceStat > critValue and the proxy p-value is 0.01 when cointegrated and
0.05 otherwise; the except branch yields NaN statistics, false, p-value 1.0. -/
def johTestRun (rawResult : Option (ℚ × ℚ)) : JohRes :=
  match rawResult with
  | some (tr, cv) =>
      { traceStat := some tr, critValue := some cv, isCoint := tr > cv,
        p := if tr > cv then 1/100 else 1/20 }
  | none =>
      { traceStat := none, critValue := none, isCoint := false, p := 1 }

/-- Spread statistics fields as computed by the body of
PairFinder._calculate_spread_statistics when no exception occurs. -/
structure SpreadCalc where
  mean : ℚ
  std : ℚ
  hedgeRatio : ℚ
  halfLife : Option ℚ
  stationarityScore : ℚ
deriving DecidableEq

/-- Result record of PairFinder._calculate_spread_statistics; none fields
model NaN sentinels. -/
structure SpreadStats where
  mean : Option ℚ
  std : Option ℚ
  hedgeRatio : ℚ
  halfLife : Option ℚ
  stationarityScore : ℚ
deriving DecidableEq

/-- Embedding of PairFinder._calculate_spread_statistics (pair_finder.py
239-287). The regression / ADF block is the rawResult argument: some for a
normal computation, none for a raised exception, which the except branch
turns into the sentinels mean NaN, std NaN, hedge ratio 1.0, half-life NaN,
stationarity score 0.0. -/
def spreadStatsRun (rawResult : Option SpreadCalc) : SpreadStats :=
  match rawResult with
  | some r =>
      { mean := some r.mean, std := some r.std, hedgeRatio := r.hedgeRatio,
        halfLife := r.halfLife, stationarityScore := r.stationarityScore }
  | none =>
      { mean := none, std := none, hedgeRatio := 1,
        halfLife := none, stationarityScore := 0 }

/-- One row of the pairs DataFrame built in PairFinder._test_cointegration
(pair_finder.py 153-166). Stocks are column indices of the panel. -/
structure PairRecord where
  stock1 : ℕ
  stock2 : ℕ
  corr : ℚ
  pvalue : ℚ
  egP : ℚ
  egStat : Option ℚ
  johCoint : Bool
  stats : SpreadStats
deriving DecidableEq

/-- External statistical computations used by one scan, indexed by the pair
of panel columns they are run on. corrF models the log-return correlation
matrix entry (none = NaN); egF, johF and spreadF model the statsmodels and
sklearn calls as in egTestRun, johTestRun and spreadStatsRun. -/
structure ScanEnv where
  corrF : ℕ → ℕ → Option ℚ
  egF : ℕ → ℕ → Option (ℚ × ℚ)
  johF : ℕ → ℕ → Option (ℚ × ℚ)
  spreadF : ℕ → ℕ → Option SpreadCalc

/-- Upper-triangular pairs (i, j) with i < j < n, in the enumeration order
of the two nested loops of PairFinder._find_high_correlation_pairs. -/
def upperPairs (n : ℕ) : List (ℕ × ℕ) :=
  (List.range n).flatMap (fun i =>
    ((List.range n).drop (i + 1)).map (fun j => (i, j)))

/-- Embedding of PairFinder._find_high_correlation_pairs (71-105): keep the
upper-triangular pairs whose correlation entry is a number with absolute
value at least the threshold. -/
def highCorrPairs (env : ScanEnv) (corrThr : ℚ) (n : ℕ) :
    List (ℕ × ℕ × ℚ) :=
  (upperPairs n).filterMap (fun ij =>
    match env.corrF ij.1 ij.2 with
    | some c => if corrThr ≤ |c| then some (ij.1, ij.2, c) else none
    | none => none)

/-- Embedding of the per-candidate body of PairFinder._test_cointegration
(126-168), after the 30-observation guard: run both tests, keep the pair
when the Engle-Granger p-value beats the threshold or the Johansen test
signals cointegration, and record min(EG p-value, Johansen p-value). -/
def testPair (thr : ℚ) (egRaw johRaw : Option (ℚ × ℚ))
    (spreadRaw : Option SpreadCalc) (i j : ℕ) (c : ℚ) : Option PairRecord :=
  let eg := egTestRun thr egRaw
  let joh := johTestRun johRaw
  if eg.p < thr ∨ joh.isCoint then
    some { stock1 := i, stock2 := j, corr := c,
           pvalue := min eg.p joh.p,
           egP := eg.p, egStat := eg.stat, johCoint := joh.isCoint,
           stats := spreadStatsRun spreadRaw }
  else none

/-- Sort key of find_pairs: ascending Cointegration_PValue, then descending
raw Correlation (sort_values with ascending = [True, False]). -/
def pairLe (a b : PairRecord) : Prop :=
  a.pvalue < b.pvalue ∨ (a.pvalue = b.pvalue ∧ b.corr ≤ a.corr)

instance : DecidableRel pairLe := fun a b =>
  inferInstanceAs (Decidable
    (a.pvalue < b.pvalue ∨ (a.pvalue = b.pvalue ∧ b.corr ≤ a.corr)))

instance : IsTotal PairRecord pairLe := by
  constructor
  intro a b
  rcases lt_trichotomy a.pvalue b.pvalue with h | h | h
  · exact Or.inl (Or.inl h)
  · rcases le_total b.corr a.corr with hc | hc
    · exact Or.inl (Or.inr ⟨h, hc⟩)
    · exact Or.inr (Or.inr ⟨h.symm, hc⟩)
  · exact Or.inr (Or.inl h)

instance : IsTrans PairRecord pairLe := by
  constructor
  intro a b c hab hbc
  rcases hab with h1 | ⟨h1, h1c⟩
  · rcases hbc with h2 | ⟨h2, _⟩
    · exact Or.inl (h1.trans h2)
    · exact Or.inl (h2 ▸ h1)
  · rcases hbc with h2 | ⟨h2, h2c⟩
    · exact Or.inl (h1 ▸ h2)
    · exact Or.inr ⟨h1.trans h2, h2c.trans h1c⟩

/-- Embedding of PairFinder.find_pairs (pair_finder.py 28-69) over a panel
given as a list of aligned, NaN-free price columns. The guard at lines
39-40 returns an empty table when the panel has no rows or fewer than two
columns; otherwise candidates are correlation-filtered, each candidate with
at least 30 common observations is cointegration-tested, and the surviving
records are stably sorted by (p-value ascending, correlation descending). -/
def findPairs (env : ScanEnv) (corrThr thr : ℚ) (panel : List (List ℚ)) :
    List PairRecord :=
  let rows := (panel.headD []).length
  if rows = 0 ∨ panel.length < 2 then []
  else
    let cands := highCorrPairs env corrThr panel.length
    let recs := cands.filterMap (fun t =>
      if rows < 30 then none
      else testPair thr (env.egF t.1 t.2.1) (env.johF t.1 t.2.1)
        (env.spreadF t.1 t.2.1) t.1 t.2.1 t.2.2)
    List.insertionSort pairLe recs

/-- Decidable check of the ordering stated by the spec: ascending p-value,
ties broken by descending absolute correlation. -/
def specAbsSorted : List PairRecord → Bool
  | [] => true
  | [_] => true
  | a :: b :: t =>
      (decide (a.pvalue < b.pvalue ∨
        (a.pvalue = b.pvalue ∧ |b.corr| ≤ |a.corr|))) && specAbsSorted (b :: t)

/-- The p-value the spec says a scanned pair reports: the minimum of the
Engle-Granger p-value and a trace proxy that is 0.01 when the trace test
signals cointegration and 0.05 otherwise. -/
def specClaimPValue (egP : ℚ) (johRaw : Option (ℚ × ℚ)) : ℚ :=
  min egP
    (match johRaw with
     | some (tr, cv) => if tr > cv then 1/100 else 1/20
     | none => 1/20)

/- ----------------------------------------------------------------------
   Part 2: visualizer.py (PairTradingVisualizer.run_backtest)
   ---------------------------------------------------------------------- -/

/-- Trading signal labels of run_backtest. -/
inductive Sig where
  | hold
  | buy
  | sell
  | exitS
deriving DecidableEq

/-- Embedding of the signal columns of run_backtest (visualizer.py 321-330):
start from hold, overwrite with sell where z > entry, then buy where
z < -entry, then exit where |z| < exit; a NaN z-score matches none of the
comparisons and leaves hold. -/
def mkSignal (entry exitZ : ℚ) (z : Option ℚ) : Sig :=
  match z with
  | none => Sig.hold
  | some v =>
      let s := Sig.hold
      let s := if v > entry then Sig.sell else s
      let s := if v < -entry then Sig.buy else s
      if |v| < exitZ then Sig.exitS else s

/-- One step of the position loop of run_backtest (visualizer.py 336-344). -/
def posStep (cur : Int) (s : Sig) : Int :=
  if s = Sig.buy ∧ cur ≤ 0 then 1
  else if s = Sig.sell ∧ 0 ≤ cur then -1
  else if s = Sig.exitS then 0
  else cur

/-- The position series produced by the loop of run_backtest, starting from
the running position cur (initially 0). -/
def positionsFrom (cur : Int) : List Sig → List Int
  | [] => []
  | s :: ss =>
      let c := posStep cur s
      c :: positionsFrom c ss

/-- The trailing window of length w ending at index t (inclusive), as pandas
rolling(w) sees it once t + 1 >= w. -/
def windowAt (w : ℕ) (l : List ℚ) (t : ℕ) : List ℚ :=
  (l.take (t + 1)).drop (t + 1 - w)

/-- Embedding of the rolling z-score block of run_backtest (visualizer.py
315-319): z_t = (ratio_t - rollingMean_t) / rollingStd_t with window w.
The square root inside the rolling standard deviation is the parameter sq,
so rollingStd = sq (sample variance of the window). The value is NaN (none)
while the window is not yet full, and NaN when the window variance is zero:
in that case every window element equals the mean, so the source computes
0 / 0, which is NaN in floating point. -/
def zScores (sq : ℚ → ℚ) (w : ℕ) (ratios : List ℚ) : List (Option ℚ) :=
  (List.range ratios.length).map (fun t =>
    if t + 1 < w then none
    else
      let win := windowAt w ratios t
      if sampleVarQ win = 0 then none
      else some ((ratios.getD t 0 - meanQ win) / sq (sampleVarQ win)))

/-- Embedding of pandas Series.pct_change: NaN at index 0, then the
one-period relative change. -/
def pctChange (p : List ℚ) : List (Option ℚ) :=
  match p with
  | [] => []
  | _ :: _ => none :: (p.zip p.tail).map (fun ab => some (ab.2 / ab.1 - 1))

/-- Embedding of pandas Series.shift(1): NaN at index 0, then the previous
value; the length is preserved. -/
def shift1 (l : List Int) : List (Option Int) :=
  match l with
  | [] => []
  | _ :: _ => none :: l.dropLast.map some

/-- Pointwise zip of three lists, truncating at the shortest. -/
def zipWith3 (f : α → β → γ → δ) : List α → List β → List γ → List δ
  | a :: as, b :: bs, c :: cs => f a b c :: zipWith3 f as bs cs
  | _, _, _ => []

/-- The strategy-return cell of run_backtest (visualizer.py 352-357):
shifted position times stock1 return minus shifted position times the hedge
ratio (1.0) times stock2 return; NaN when any input is NaN. -/
def srCell (q : Option Int) (a b : Option ℚ) : Option ℚ :=
  match q, a, b with
  | some qv, some av, some bv => some ((qv : ℚ) * av - (qv : ℚ) * 1 * bv)
  | _, _, _ => none

/-- The strategy-return series of run_backtest: position.shift(1) combined
pointwise with the two pct_change series. -/
def stratReturns (pos : List Int) (p1 p2 : List ℚ) : List (Option ℚ) :=
  zipWith3 srCell (shift1 pos) (pctChange p1) (pctChange p2)

/-- Running maximum (pandas expanding max), assuming a nonempty list. -/
def runningMax : List ℚ → List ℚ
  | [] => []
  | x :: xs => (xs.foldl (fun (st : ℚ × List ℚ) y =>
      (max st.1 y, st.2 ++ [max st.1 y])) (x, [x])).2

/-- Minimum of a list of rationals with default 0 (pandas Series.min). -/
def listMinD : List ℚ → ℚ
  | [] => 0
  | x :: xs => xs.foldl min x

/-- Summary record returned by run_backtest. The signals field models the
signals_df rows: the (signal, z-score, position) triples of the dates whose
signal is buy, sell or exit. -/
structure BTResult where
  totalReturn : ℚ
  sharpe : ℚ
  maxDrawdown : ℚ
  winRate : ℚ
  signals : List (Sig × Option ℚ × Int)
deriving DecidableEq

/-- The ratios column of run_backtest (price1 / price2 per row). -/
def btRatios (rows : List (ℚ × ℚ)) : List ℚ :=
  rows.map (fun pr => pr.1 / pr.2)

/-- The rolling window length of run_backtest: min(60, number of rows / 4). -/
def btWindow (rows : List (ℚ × ℚ)) : ℕ := min 60 (rows.length / 4)

/-- The z-score series of run_backtest for a joined price panel. -/
def btZ (sq : ℚ → ℚ) (rows : List (ℚ × ℚ)) : List (Option ℚ) :=
  zScores sq (btWindow rows) (btRatios rows)

/-- The signal series of run_backtest. -/
def btSignals (sq : ℚ → ℚ) (rows : List (ℚ × ℚ)) (entry exitZ : ℚ) :
    List Sig :=
  (btZ sq rows).map (mkSignal entry exitZ)

/-- The position series of run_backtest. -/
def btPositions (sq : ℚ → ℚ) (rows : List (ℚ × ℚ)) (entry exitZ : ℚ) :
    List Int :=
  positionsFrom 0 (btSignals sq rows entry exitZ)

/-- The strategy-return series of run_backtest. -/
def btStratReturns (sq : ℚ → ℚ) (rows : List (ℚ × ℚ)) (entry exitZ : ℚ) :
    List (Option ℚ) :=
  stratReturns (btPositions sq rows entry exitZ)
    (rows.map (·.1)) (rows.map (·.2))

/-- Embedding of PairTradingVisualizer.run_backtest (visualizer.py 285-394)
on the joined, NaN-free row list of the two price columns. sq models the
floating-point square root (used inside the rolling standard deviation and
for the Sharpe annualisation factor passed as sqrt252). Fewer than 30 rows
short-circuits to the all-zero record with an empty signal table. -/
def runBacktest (sq : ℚ → ℚ) (sqrt252 : ℚ) (rows : List (ℚ × ℚ))
    (entry exitZ : ℚ) : BTResult :=
  if rows.length < 30 then
    { totalReturn := 0, sharpe := 0, maxDrawdown := 0, winRate := 0,
      signals := [] }
  else
    let z := btZ sq rows
    let pos := btPositions sq rows entry exitZ
    let sr := btStratReturns sq rows entry exitZ
    let cum := cumprod (sr.map (fun o => 1 + o.getD 0))
    let totalReturn := lastD cum 1 - 1
    let clean := sr.filterMap id
    let std := sq (sampleVarQ clean)
    let sharpe :=
      if clean.length > 0 ∧ 0 < std then meanQ clean / std * sqrt252 else 0
    let peak := runningMax cum
    let dd := (cum.zip peak).map (fun cp => cp.1 / cp.2 - 1)
    let winning := countQ (fun o => match o with
      | some v => decide (0 < v)
      | none => false) sr
    let nonzero := countQ (fun o => match o with
      | some v => decide (v ≠ 0)
      | none => true) sr
    let winRate := if 0 < nonzero then (winning : ℚ) / (nonzero : ℚ) else 0
    let sigRows := (zipWith3 (fun s zv p => (s, zv, p))
      (btSignals sq rows entry exitZ) z pos).filter
        (fun t => t.1 ≠ Sig.hold)
    { totalReturn := totalReturn, sharpe := sharpe,
      maxDrawdown := listMinD dd, winRate := winRate, signals := sigRows }

/-- The hysteresis transition function stated by the spec (section 4.4):
to LONG when z < -entry from FLAT or SHORT, to SHORT when z > entry from
FLAT or LONG, to FLAT when |z| < exit, else keep the previous state. -/
def hystStep (entry exitZ : ℚ) (p : Int) (z : ℚ) : Int :=
  if z < -entry ∧ (p = 0 ∨ p = -1) then 1
  else if z > entry ∧ (p = 0 ∨ p = 1) then -1
  else if |z| < exitZ then 0
  else p

/-- The position trajectory of the hysteresis state machine of the spec,
from initial state p; an undefined (NaN) z-score gives no signal and keeps
the state, matching the hold convention of section 4.4. -/
def specPositions (entry exitZ : ℚ) (p : Int) : List (Option ℚ) → List Int
  | [] => []
  | none :: zs => p :: specPositions entry exitZ p zs
  | some z :: zs =>
      let c := hystStep entry exitZ p z
      c :: specPositions entry exitZ c zs

/-- The win rate as the spec states it: wins over nonzero returns among the
defined (non-NaN) strategy returns, 0 when there is no nonzero return. -/
def specWinRate (sr : List (Option ℚ)) : ℚ :=
  let defined := sr.filterMap id
  let wins := countQ (fun v => decide (0 < v)) defined
  let nz := countQ (fun v => decide (v ≠ 0)) defined
  if 0 < nz then (wins : ℚ) / (nz : ℚ) else 0

/- ----------------------------------------------------------------------
   Part 3: app.py (calculate_zscore, pair_trading_analysis, optimize_z_score)
   ---------------------------------------------------------------------- -/

/-- Embedding of calculate_zscore (app.py 47-52). numpy std is the square
root of the population variance; the square root is the parameter sq, so
the guard std == 0 reads sq (population variance) = 0. A zero standard
deviation returns an all-zero series instead of dividing by zero. -/
def calcZScore (sq : ℚ → ℚ) (spread : List ℚ) : List ℚ :=
  let m := meanQ spread
  let std := sq (popVarQ spread)
  if std = 0 then spread.map (fun _ => 0)
  else spread.map (fun x => (x - m) / std)

/-- Signal labels of pair_trading_analysis. -/
inductive AppSig where
  | neutral
  | buy
  | sell
deriving DecidableEq

/-- Embedding of the signal assignments of pair_trading_analysis (app.py
191-194): start from neutral, overwrite with buy where z < -entry, sell
where z > entry, then neutral again where -exit <= z <= exit. -/
def ptaSignalOne (entry exitZ : ℚ) (z : ℚ) : AppSig :=
  let s := AppSig.neutral
  let s := if z < -entry then AppSig.buy else s
  let s := if z > entry then AppSig.sell else s
  if -exitZ ≤ z ∧ z ≤ exitZ then AppSig.neutral else s

/-- Embedding of the position cell of pair_trading_analysis (app.py
196-203): np.where(z < -entry, 1, np.where(z > entry, -1, 0)) — a pure
function of the current z-score, with no dependence on the previous
position and no use of the exit threshold. -/
def ptaPosOne (entry : ℚ) (z : ℚ) : Int :=
  if z < -entry then 1 else if z > entry then -1 else 0

/-- The position series of pair_trading_analysis. -/
def ptaPositions (entry : ℚ) (z : List ℚ) : List Int :=
  z.map (ptaPosOne entry)

/-- Embedding of the position cell of optimize_z_score (app.py 255-258):
start from 0, set 1 where z < -entry, -1 where z > entry, then 0 again
where -exit <= z <= exit. -/
def optPosOne (entry exitZ : ℚ) (z : ℚ) : Int :=
  let p : Int := 0
  let p := if z < -entry then 1 else p
  let p := if z > entry then -1 else p
  if -exitZ ≤ z ∧ z ≤ exitZ then 0 else p

/-- Embedding of the log-return column np.log(data / data.shift(1)).dropna()
(app.py 179 and 240); the natural log is the parameter lg. The list has one
fewer entry than the price list: the first date is dropped. -/
def logRets (lg : ℚ → ℚ) (p : List ℚ) : List ℚ :=
  (p.zip p.tail).map (fun ab => lg (ab.2 / ab.1))

/-- The strategy-return series shared by pair_trading_analysis (app.py
205-213) and optimize_z_score (260-267): (log-return difference of the two
assets) times position.shift(1), aligned on the dates from the second one
onward, so entry t of the result multiplies the return difference over
(t, t+1) by the position at date t. -/
def appStratReturns (lg : ℚ → ℚ) (pBase pOther : List ℚ) (pos : List Int) :
    List ℚ :=
  List.zipWith (fun d (q : Int) => d * (q : ℚ))
    (List.zipWith (fun a b => a - b) (logRets lg pBase) (logRets lg pOther))
    pos.dropLast

/-- One row of the optimisation grid of optimize_z_score. -/
structure OptRecord where
  entry : ℚ
  exitT : ℚ
  totalReturn : ℚ
  sharpe : ℚ
deriving DecidableEq

/-- The grid body of optimize_z_score (app.py 255-281) for one (entry, exit)
configuration: memoryless positions from the shared z-score series, the
shifted-position strategy returns, cumulative product, total return, and a
Sharpe ratio of sqrt252 * mean / std (0 when std is 0). std is the sample
standard deviation, modelled as sq applied to the sample variance. -/
def evalConfig (lg sq : ℚ → ℚ) (sqrt252 : ℚ) (pBase pOther : List ℚ)
    (z : List ℚ) (entry exitZ : ℚ) : OptRecord :=
  let pos := z.map (optPosOne entry exitZ)
  let sr := appStratReturns lg pBase pOther pos
  let cum := cumprod (sr.map (fun x => 1 + x))
  let totalReturn := lastD cum 1 - 1
  let sd := sq (sampleVarQ sr)
  let sharpe := if sd ≠ 0 then sqrt252 * meanQ sr / sd else 0
  { entry := entry, exitT := exitZ, totalReturn := totalReturn,
    sharpe := sharpe }

/-- The enumeration order of itertools.product(zs, repeat=2): entry in the
outer loop, exit in the inner loop, both over the candidate list. -/
def gridPairs (zs : List ℚ) : List (ℚ × ℚ) :=
  zs.flatMap (fun e => zs.map (fun x => (e, x)))

/-- Embedding of optimize_z_score (app.py 239-283): the spread of the two
price columns (base minus other), the shared z-score series, and one grid
record per enumerated (entry, exit) pair with entry > exit; pairs with
entry <= exit are skipped by the continue statement. -/
def optimizeZScore (lg sq : ℚ → ℚ) (sqrt252 : ℚ) (pBase pOther : List ℚ)
    (zs : List ℚ) : List OptRecord :=
  let spread := List.zipWith (fun a b => a - b) pBase pOther
  let z := calcZScore sq spread
  (gridPairs zs).filterMap (fun p =>
    if p.1 ≤ p.2 then none
    else some (evalConfig lg sq sqrt252 pBase pOther z p.1 p.2))

/-- Embedding of pandas Series.idxmax as used in main (app.py 337-339):
the index of the first occurrence of the maximum value, together with that
value; none on an empty series. -/
def idxmaxVal (f : α → ℚ) : List α → Option (ℕ × ℚ)
  | [] => none
  | x :: xs =>
      match idxmaxVal f xs with
      | none => some (0, f x)
      | some jm => if f x < jm.2 then some (jm.1 + 1, jm.2) else some (0, f x)

/-- Strict lexicographic order on (entry, exit) pairs: the enumeration order
the spec promises for tie-breaking. -/
def lexLt (a b : ℚ × ℚ) : Prop :=
  a.1 < b.1 ∨ (a.1 = b.1 ∧ a.2 < b.2)

/- ----------------------------------------------------------------------
   Theorems
   ---------------------------------------------------------------------- -/

set_option maxRecDepth 16000

/-- C7: a failed Engle-Granger computation yields p-value 1.0 and a false
cointegration flag, and a failed spread-statistics computation yields the
sentinels hedge ratio 1.0, half-life NaN and stationarity score 0.0; both
wrappers are total functions, so neither failure raises to the caller. -/
theorem c7_failure_sentinels (thr : ℚ) :
    egTestRun thr none = { stat := none, p := 1, isCoint := false } ∧
    spreadStatsRun none =
      { mean := none, std := none, hedgeRatio := 1,
        halfLife := none, stationarityScore := 0 } :=
  ⟨rfl, rfl⟩

/-- C8: with fewer than 30 usable observations run_backtest returns the
record with totalReturn, sharpeRatio, maxDrawdown and winRate all zero and
an empty signal list, for every threshold configuration. -/
theorem c8_degenerate_input (sq : ℚ → ℚ) (sqrt252 : ℚ)
    (rows : List (ℚ × ℚ)) (entry exitZ : ℚ) (h : rows.length < 30) :
    runBacktest sq sqrt252 rows entry exitZ =
      { totalReturn := 0, sharpe := 0, maxDrawdown := 0, winRate := 0,
        signals := [] } := by
  unfold runBacktest
  rw [if_pos h]

/-- Witness for C8 at a price pair of exactly 10 points. -/
theorem c8_degenerate_input_witness :
    (List.replicate 10 ((1 : ℚ), (1 : ℚ))).length < 30 ∧
    runBacktest (fun q => q) 1 (List.replicate 10 ((1 : ℚ), (1 : ℚ))) 2 (1/2) =
      { totalReturn := 0, sharpe := 0, maxDrawdown := 0, winRate := 0,
        signals := [] } :=
  ⟨by decide,
   c8_degenerate_input (fun q => q) 1 (List.replicate 10 ((1 : ℚ), (1 : ℚ)))
     2 (1/2) (by decide)⟩

/-- A scan environment in which every external statistical call fails. -/
def trivEnv : ScanEnv :=
  { corrF := fun _ _ => none, egF := fun _ _ => none,
    johF := fun _ _ => none, spreadF := fun _ _ => none }

/-- C9 counterexample: on a panel with a single asset (and on an empty
panel) find_pairs completes normally and returns the empty table; no hard
failure is surfaced to the caller. -/
theorem c9_counterexample :
    findPairs trivEnv (4/5) (1/20) [[1, 2, 3]] = [] ∧
    findPairs trivEnv (4/5) (1/20) [] = [] := by
  constructor <;> rfl

/-- C9 as amended: a structurally invalid panel (no rows, or fewer than two
columns) makes find_pairs return the empty table through its normal return
path rather than surface a failure. -/
theorem c9_amended (env : ScanEnv) (corrThr thr : ℚ) (panel : List (List ℚ))
    (h : (panel.headD []).length = 0 ∨ panel.length < 2) :
    findPairs env corrThr thr panel = [] := by
  unfold findPairs
  rw [if_pos h]

/-- Witness for C9 at a two-column panel with no rows. -/
theorem c9_amended_witness :
    (([[], []] : List (List ℚ)).headD []).length = 0 ∧
    findPairs trivEnv (4/5) (1/20) [[], []] = [] :=
  ⟨by decide, c9_amended trivEnv (4/5) (1/20) [[], []] (Or.inl (by decide))⟩

/-- C1 as amended: the table returned by find_pairs is sorted by p-value
ascending with ties broken by the raw (signed) correlation descending. -/
theorem c1_sorted_by_signed_correlation (env : ScanEnv) (corrThr thr : ℚ)
    (panel : List (List ℚ)) :
    List.Sorted pairLe (findPairs env corrThr thr panel) := by
  unfold findPairs
  by_cases h : (panel.headD []).length = 0 ∨ panel.length < 2
  · rw [if_pos h]
    exact List.sorted_nil
  · rw [if_neg h]
    exact List.sorted_insertionSort pairLe _

/-- Scan environment for the C1 counterexample: columns 0 and 1 correlate
at 0.85, columns 0 and 2 at -0.90, the Engle-Granger test reports p-value
0.01 for every pair, and the Johansen computation fails. -/
def envC1 : ScanEnv :=
  { corrF := fun i j =>
      if i = 0 ∧ j = 1 then some (17/20)
      else if i = 0 ∧ j = 2 then some (-9/10)
      else none,
    egF := fun _ _ => some (0, 1/100),
    johF := fun _ _ => none,
    spreadF := fun _ _ => none }

/-- The 30-row three-column panel for the C1 counterexample. -/
def panelC1 : List (List ℚ) :=
  [List.replicate 30 1, List.replicate 30 1, List.replicate 30 1]

/-- C1 counterexample: both scanned pairs report p-value 0.01, and the
returned order keeps the 0.85-correlation pair before the pair whose
correlation has the larger absolute value 0.90, so the output is not sorted
by descending absolute correlation within equal p-values. -/
theorem c1_counterexample :
    (findPairs envC1 (4/5) (1/20) panelC1).map
      (fun r => (r.stock1, r.stock2, r.corr, r.pvalue)) =
      [(0, 1, 17/20, 1/100), (0, 2, -9/10, 1/100)] ∧
    specAbsSorted (findPairs envC1 (4/5) (1/20) panelC1) = false := by
  constructor <;> decide

/-- C3 as amended: a candidate pair is retained as cointegrated exactly when
the Engle-Granger p-value is below the configured threshold or the Johansen
test signals cointegration, and the reported p-value of a retained pair is
min(Engle-Granger p-value, Johansen p-value), where the Johansen p-value is
0.01 when the trace statistic exceeds its 5 percent critical value, 0.05
when the test completes without signalling, and 1.0 when the Johansen
computation fails (so a failed trace test never lowers the report). -/
theorem c3_cointegration_decision (thr : ℚ) (egRaw johRaw : Option (ℚ × ℚ))
    (spreadRaw : Option SpreadCalc) (i j : ℕ) (c : ℚ) :
    ((testPair thr egRaw johRaw spreadRaw i j c).isSome ↔
      ((egTestRun thr egRaw).p < thr ∨ (johTestRun johRaw).isCoint)) ∧
    (∀ r, testPair thr egRaw johRaw spreadRaw i j c = some r →
      r.pvalue = min (egTestRun thr egRaw).p (johTestRun johRaw).p) ∧
    (∀ tr cv, (johTestRun (some (tr, cv))).p =
      if tr > cv then 1/100 else 1/20) ∧
    (johTestRun none).p = 1 := by
  refine ⟨?_, ?_, fun tr cv => rfl, rfl⟩
  · unfold testPair
    by_cases h : (egTestRun thr egRaw).p < thr ∨ (johTestRun johRaw).isCoint
    · rw [if_pos h]
      simpa using h
    · rw [if_neg h]
      simpa using h
  · intro r h
    unfold testPair at h
    by_cases hc : (egTestRun thr egRaw).p < thr ∨ (johTestRun johRaw).isCoint
    · rw [if_pos hc] at h
      cases h
      rfl
    · rw [if_neg hc] at h
      cases h

/-- The pair record produced in the C3 witness scenario. -/
def recC3 : PairRecord :=
  { stock1 := 0, stock2 := 1, corr := 9/10, pvalue := 2/25, egP := 2/25,
    egStat := some 0, johCoint := false, stats := spreadStatsRun none }

/-- Witness for C3: threshold 0.10, Engle-Granger p-value 0.08, failed
Johansen computation; the retained record reports min(0.08, 1.0) = 0.08. -/
theorem c3_cointegration_decision_witness :
    recC3.pvalue =
      min (egTestRun (1/10) (some (0, 2/25))).p (johTestRun none).p :=
  (c3_cointegration_decision (1/10) (some (0, 2/25)) none none 0 1
    (9/10)).2.1 recC3 (by decide)

/-- Scan environment for the C3 counterexample: one candidate pair with
correlation 0.90, Engle-Granger p-value 0.08, failed Johansen call. -/
def envC3 : ScanEnv :=
  { corrF := fun i j => if i = 0 ∧ j = 1 then some (9/10) else none,
    egF := fun _ _ => some (0, 2/25),
    johF := fun _ _ => none,
    spreadF := fun _ _ => none }

/-- The 30-row two-column panel for the C3 counterexample. -/
def panelC3 : List (List ℚ) := [List.replicate 30 1, List.replicate 30 1]

/-- C3 counterexample: with threshold 0.10 the pair is retained via its
Engle-Granger p-value 0.08, the scan reports 0.08, but the claimed formula
min(0.08, trace proxy 0.05) gives 0.05: the code uses the failure sentinel
1.0, not 0.05, as the Johansen p-value of a failed trace test. -/
theorem c3_counterexample :
    (findPairs envC3 (4/5) (1/10) panelC3).map (fun r => r.pvalue) =
      [2/25] ∧
    specClaimPValue (2/25) none = 1/20 ∧ (2/25 : ℚ) ≠ 1/20 := by
  refine ⟨by decide, by decide, by decide⟩

/-- Stepping on any signal keeps the position in the three-valued state
space LONG (+1), FLAT (0), SHORT (-1). -/
theorem posStep_mem (p : Int) (hp : p = -1 ∨ p = 0 ∨ p = 1) (s : Sig) :
    posStep p s = -1 ∨ posStep p s = 0 ∨ posStep p s = 1 := by
  unfold posStep
  split_ifs
  · exact Or.inr (Or.inr rfl)
  · exact Or.inl rfl
  · exact Or.inr (Or.inl rfl)
  · exact hp

/-- With entry > exit >= 0, one iteration of the run_backtest position loop
on the signal of a defined z-score agrees with the hysteresis transition of
the spec, on the reachable states -1, 0, 1. -/
theorem posStep_eq_hystStep (entry exitZ : ℚ) (hx : 0 ≤ exitZ)
    (he : exitZ < entry) (p : Int) (hp : p = -1 ∨ p = 0 ∨ p = 1) (v : ℚ) :
    posStep p (mkSignal entry exitZ (some v)) = hystStep entry exitZ p v := by
  show posStep p
      (if |v| < exitZ then Sig.exitS
       else if v < -entry then Sig.buy
       else if v > entry then Sig.sell
       else Sig.hold) = hystStep entry exitZ p v
  by_cases h3 : |v| < exitZ
  · have habs := abs_lt.mp h3
    have hv1 : ¬ v < -entry := by
      push_neg
      have : -entry < -exitZ := neg_lt_neg he
      linarith [habs.1]
    have hv2 : ¬ v > entry := by
      push_neg
      linarith [habs.2]
    rw [if_pos h3]
    unfold posStep hystStep
    simp [hv1, hv2, h3]
  · rw [if_neg h3]
    by_cases h2 : v < -entry
    · have hv2 : ¬ v > entry := by
        push_neg
        have h0 : 0 < entry := lt_of_le_of_lt hx he
        linarith
      rw [if_pos h2]
      unfold posStep hystStep
      rcases hp with hp | hp | hp <;> subst hp <;> simp [h2, hv2, h3]
    · rw [if_neg h2]
      by_cases h1 : v > entry
      · rw [if_pos h1]
        unfold posStep hystStep
        rcases hp with hp | hp | hp <;> subst hp <;> simp [h1, h2, h3]
      · rw [if_neg h1]
        unfold posStep hystStep
        simp [h1, h2, h3]

/-- With entry > exit >= 0, the run_backtest position loop started in any
reachable state computes exactly the spec state machine trajectory. -/
theorem positionsFrom_eq_specPositions (entry exitZ : ℚ) (hx : 0 ≤ exitZ)
    (he : exitZ < entry) :
    ∀ (zo : List (Option ℚ)) (p : Int), (p = -1 ∨ p = 0 ∨ p = 1) →
      positionsFrom p (zo.map (mkSignal entry exitZ)) =
        specPositions entry exitZ p zo := by
  intro zo
  induction zo with
  | nil => intro p _; rfl
  | cons z zs ih =>
      intro p hp
      cases z with
      | none =>
          have hstep : posStep p (mkSignal entry exitZ none) = p := by
            unfold posStep mkSignal
            simp
          simp only [List.map_cons, positionsFrom, specPositions, hstep]
          exact congrArg _ (ih p hp)
      | some v =>
          have hstep := posStep_eq_hystStep entry exitZ hx he p hp v
          have hmem := posStep_mem p hp (mkSignal entry exitZ (some v))
          rw [hstep] at hmem
          simp only [List.map_cons, positionsFrom, specPositions, hstep]
          exact congrArg _ (ih _ hmem)

/-- C2 as amended: with thresholds entry > exit >= 0, the position series of
run_backtest follows the hysteresis state machine of the spec (initial state
FLAT, LONG when z < -entry from FLAT or SHORT, SHORT when z > entry from
FLAT or LONG, FLAT when |z| < exit, previous state in the dead zone, state
kept while z is undefined); the position series of pair_trading_analysis in
app.py does not carry state: it is the memoryless per-date map +1 where
z < -entry, -1 where z > entry and 0 otherwise, with no dependence on the
previous position and no use of the exit threshold. -/
theorem c2_position_state_machine (sq : ℚ → ℚ) (rows : List (ℚ × ℚ))
    (zo : List (Option ℚ)) (z : List ℚ) (entry exitZ : ℚ)
    (hx : 0 ≤ exitZ) (he : exitZ < entry) :
    positionsFrom 0 (zo.map (mkSignal entry exitZ)) =
      specPositions entry exitZ 0 zo ∧
    btPositions sq rows entry exitZ =
      specPositions entry exitZ 0 (btZ sq rows) ∧
    ptaPositions entry z =
      z.map (fun v => if v < -entry then 1 else if v > entry then -1 else 0) := by
  refine ⟨?_, ?_, rfl⟩
  · exact positionsFrom_eq_specPositions entry exitZ hx he zo 0
      (Or.inr (Or.inl rfl))
  · exact positionsFrom_eq_specPositions entry exitZ hx he (btZ sq rows) 0
      (Or.inr (Or.inl rfl))

/-- Witness for C2 with entry 1, exit 1/2 and a z-score path that enters
short, enters long, holds through the dead zone and exits. -/
theorem c2_position_state_machine_witness :
    (0 : ℚ) ≤ 1/2 ∧ (1/2 : ℚ) < 1 ∧
    (positionsFrom 0 (([none, some 3, some (-3), some (3/4), some 0] :
        List (Option ℚ)).map (mkSignal 1 (1/2))) =
      specPositions 1 (1/2) 0 [none, some 3, some (-3), some (3/4), some 0] ∧
     btPositions (fun q => q) [] 1 (1/2) =
      specPositions 1 (1/2) 0 (btZ (fun q => q) []) ∧
     ptaPositions 1 [3, -3, 3/4, 0] =
      [3, -3, 3/4, 0].map
        (fun v : ℚ => if v < -1 then 1 else if v > 1 then -1 else 0)) :=
  ⟨by decide, by decide,
   c2_position_state_machine (fun q => q) []
     [none, some 3, some (-3), some (3/4), some 0] [3, -3, 3/4, 0] 1 (1/2)
     (by decide) (by decide)⟩

/-- C2 counterexample: with entry 1 > exit 1/2 >= 0 and the z-score path
[-3, 3/4], the hysteresis machine holds the long position through the dead
zone value 3/4, but the position series of pair_trading_analysis (app.py
196-203) drops to 0 there, so it does not follow the state machine. -/
theorem c2_counterexample :
    ptaPositions 1 [-3, 3/4] = [1, 0] ∧
    specPositions 1 (1/2) 0 [some (-3), some (3/4)] = [1, 1] ∧
    ([1, 0] : List Int) ≠ [1, 1] := by
  refine ⟨by decide, by decide, by decide⟩

/-- Sum of a constant list. -/
theorem sumQ_const (l : List ℚ) (c : ℚ) (h : ∀ v ∈ l, v = c) :
    sumQ l = l.length * c := by
  induction l with
  | nil => simp [sumQ]
  | cons x xs ih =>
      have hx : x = c := h x (List.mem_cons_self x xs)
      have hxs := ih (fun v hv => h v (List.mem_cons_of_mem x hv))
      show x + sumQ xs = _
      rw [hx, hxs, List.length_cons]
      push_cast
      ring

/-- Mean of a nonempty constant list. -/
theorem meanQ_const (l : List ℚ) (c : ℚ) (h : ∀ v ∈ l, v = c)
    (hne : l ≠ []) : meanQ l = c := by
  have hlen : (l.length : ℚ) ≠ 0 := by
    have := List.length_pos.mpr hne
    exact_mod_cast this.ne'
  unfold meanQ
  rw [sumQ_const l c h, mul_comm, mul_div_assoc, div_self hlen, mul_one]

/-- Sum of a list of zeros. -/
theorem sumQ_zeros (l : List ℚ) (h : ∀ v ∈ l, v = 0) : sumQ l = 0 := by
  have := sumQ_const l 0 h
  simpa using this

/-- Population variance of a nonempty constant list is zero. -/
theorem popVarQ_const (l : List ℚ) (c : ℚ) (h : ∀ v ∈ l, v = c)
    (hne : l ≠ []) : popVarQ l = 0 := by
  unfold popVarQ
  have hz : ∀ w ∈ l.map (fun x => (x - meanQ l) ^ 2), w = 0 := by
    intro w hw
    rcases List.mem_map.mp hw with ⟨x, hx, rfl⟩
    rw [h x hx, meanQ_const l c h hne]
    ring
  rw [sumQ_zeros _ hz, zero_div]

/-- C10: a constant spread has zero standard deviation, so calculate_zscore
returns the all-zero series instead of dividing by zero, and consequently
the signal series of pair_trading_analysis is all neutral and its position
series is all zero for every entry threshold above 0. -/
theorem c10_constant_spread (sq : ℚ → ℚ) (spread : List ℚ)
    (c entry exitZ : ℚ) (hsq : sq 0 = 0) (hc : ∀ v ∈ spread, v = c)
    (hne : spread ≠ []) (he : 0 < entry) :
    calcZScore sq spread = spread.map (fun _ => 0) ∧
    (calcZScore sq spread).map (ptaSignalOne entry exitZ) =
      spread.map (fun _ => AppSig.neutral) ∧
    ptaPositions entry (calcZScore sq spread) =
      spread.map (fun _ => (0 : Int)) := by
  have hzero : calcZScore sq spread = spread.map (fun _ => 0) := by
    unfold calcZScore
    rw [popVarQ_const spread c hc hne, hsq]
    simp
  refine ⟨hzero, ?_, ?_⟩
  · rw [hzero, List.map_map]
    refine List.map_congr_left ?_
    intro x _
    show ptaSignalOne entry exitZ 0 = AppSig.neutral
    unfold ptaSignalOne
    have h1 : ¬ (0 : ℚ) < -entry := by
      push_neg
      linarith
    have h2 : ¬ (0 : ℚ) > entry := by
      push_neg
      linarith
    simp [h1, h2]
  · rw [hzero]
    unfold ptaPositions
    rw [List.map_map]
    refine List.map_congr_left ?_
    intro x _
    show ptaPosOne entry 0 = 0
    unfold ptaPosOne
    have h1 : ¬ (0 : ℚ) < -entry := by
      push_neg
      linarith
    have h2 : ¬ (0 : ℚ) > entry := by
      push_neg
      linarith
    simp [h1, h2]

/-- Witness for C10 at the constant spread [5, 5, 5] with entry 2. -/
theorem c10_constant_spread_witness :
    ((fun q => q) : ℚ → ℚ) 0 = 0 ∧
    (calcZScore (fun q => q) [5, 5, 5] = [0, 0, 0] ∧
     (calcZScore (fun q => q) [5, 5, 5]).map (ptaSignalOne 2 0) =
       [AppSig.neutral, AppSig.neutral, AppSig.neutral] ∧
     ptaPositions 2 (calcZScore (fun q => q) [5, 5, 5]) = [0, 0, 0]) := by
  have h := c10_constant_spread (fun q => q) [5, 5, 5] 5 2 0 (by decide)
    (by decide) (by decide) (by decide)
  exact ⟨by decide, by simpa using h⟩

/-- Indexing a pointwise three-way zip. -/
theorem zipWith3_getD (f : α → β → γ → δ) (da : α) (db : β) (dc : γ)
    (dd : δ) :
    ∀ (as : List α) (bs : List β) (cs : List γ) (i : ℕ),
      i < as.length → i < bs.length → i < cs.length →
      (zipWith3 f as bs cs).getD i dd =
        f (as.getD i da) (bs.getD i db) (cs.getD i dc) := by
  intro as
  induction as with
  | nil => intro bs cs i ha _ _; exact absurd ha (by simp)
  | cons a as ih =>
      intro bs cs i ha hb hc
      cases bs with
      | nil => exact absurd hb (by simp)
      | cons b bs =>
          cases cs with
          | nil => exact absurd hc (by simp)
          | cons c cs =>
              cases i with
              | zero => rfl
              | succ k =>
                  show (zipWith3 f as bs cs).getD k dd = _
                  exact ih bs cs k (Nat.lt_of_succ_lt_succ ha)
                    (Nat.lt_of_succ_lt_succ hb) (Nat.lt_of_succ_lt_succ hc)

/-- Indexing a mapped list below its length. -/
theorem getD_map (f : α → β) (da : α) (db : β) :
    ∀ (l : List α) (i : ℕ), i < l.length →
      (l.map f).getD i db = f (l.getD i da) := by
  intro l
  induction l with
  | nil => intro i h; exact absurd h (by simp)
  | cons x xs ih =>
      intro i h
      cases i with
      | zero => rfl
      | succ k => exact ih k (Nat.lt_of_succ_lt_succ h)

/-- Indexing the zip of a list with its own tail. -/
theorem getD_zip_tail (p : List ℚ) :
    ∀ (t : ℕ), t + 1 < p.length →
      (p.zip p.tail).getD t (0, 0) = (p.getD t 0, p.getD (t + 1) 0) := by
  induction p with
  | nil => intro t h; exact absurd h (by simp)
  | cons x xs ih =>
      intro t h
      cases xs with
      | nil => exact absurd h (by simp)
      | cons y ys =>
          cases t with
          | zero => rfl
          | succ k => exact ih k (Nat.lt_of_succ_lt_succ h)

/-- Indexing a dropLast below the shortened length. -/
theorem getD_dropLast (l : List Int) :
    ∀ (t : ℕ), t + 1 < l.length → l.dropLast.getD t 0 = l.getD t 0 := by
  induction l with
  | nil => intro t h; exact absurd h (by simp)
  | cons x xs ih =>
      intro t h
      cases xs with
      | nil => exact absurd h (by simp)
      | cons y ys =>
          cases t with
          | zero => rfl
          | succ k => exact ih k (Nat.lt_of_succ_lt_succ h)

/-- A shifted position series reads the previous position at every index
from 1 on. -/
theorem shift1_getD (l : List Int) :
    ∀ (t : ℕ), t + 1 < l.length →
      (shift1 l).getD (t + 1) none = some (l.getD t 0) := by
  intro t h
  cases l with
  | nil => exact absurd h (by simp)
  | cons x xs =>
      show (((x :: xs).dropLast).map some).getD t none = _
      rw [getD_map some 0 none _ t
        (by simpa using Nat.lt_of_succ_lt_succ (by simpa using h))]
      rw [getD_dropLast _ t h]

/-- The length of a shifted series. -/
theorem shift1_length (l : List Int) : (shift1 l).length = l.length := by
  cases l with
  | nil => rfl
  | cons x xs => simp [shift1]

/-- The pct_change series has the length of its price series. -/
theorem pctChange_length (p : List ℚ) : (pctChange p).length = p.length := by
  cases p with
  | nil => rfl
  | cons x xs => simp [pctChange]

/-- pct_change at index t + 1 is the relative price change from t to t+1. -/
theorem pctChange_getD (p : List ℚ) (t : ℕ) (h : t + 1 < p.length) :
    (pctChange p).getD (t + 1) none =
      some (p.getD (t + 1) 0 / p.getD t 0 - 1) := by
  cases p with
  | nil => exact absurd h (by simp)
  | cons x xs =>
      show (((x :: xs).zip xs).map
        (fun ab => some (ab.2 / ab.1 - 1))).getD t none = _
      have hlen : t < ((x :: xs).zip xs).length := by
        simp only [List.length_cons] at h
        simp only [List.length_zip, List.length_cons]
        omega
      rw [getD_map (fun ab => some (ab.2 / ab.1 - 1)) (0, 0) none _ t hlen]
      have := getD_zip_tail (x :: xs) t h
      simp only [List.tail_cons] at this
      rw [this]

/-- pct_change is undefined at index 0. -/
theorem pctChange_getD_zero (p : List ℚ) :
    (pctChange p).getD 0 none = none := by
  cases p <;> rfl

/-- The strategy-return series is undefined at index 0. -/
theorem stratReturns_getD_zero (pos : List Int) (p1 p2 : List ℚ) :
    (stratReturns pos p1 p2).getD 0 none = none := by
  cases pos <;> cases p1 <;> cases p2 <;> rfl

/-- The length of a log-return series is one less than its price series. -/
theorem logRets_length (lg : ℚ → ℚ) (p : List ℚ) :
    (logRets lg p).length = p.length - 1 := by
  cases p with
  | nil => rfl
  | cons x xs => simp [logRets]

/-- The log return at index t covers the price move from date t to t+1. -/
theorem logRets_getD (lg : ℚ → ℚ) (p : List ℚ) (t : ℕ)
    (h : t + 1 < p.length) :
    (logRets lg p).getD t 0 = lg (p.getD (t + 1) 0 / p.getD t 0) := by
  unfold logRets
  have hlen : t < (p.zip p.tail).length := by
    simp only [List.length_zip]
    cases p with
    | nil => simp at h
    | cons x xs => simp only [List.tail_cons, List.length_cons] at h ⊢; omega
  rw [getD_map (fun ab => lg (ab.2 / ab.1)) (0, 0) 0 _ t hlen,
    getD_zip_tail p t h]

/-- Indexing a pointwise two-way zip. -/
theorem getD_zipWith (f : α → β → γ) (da : α) (db : β) (dc : γ) :
    ∀ (as : List α) (bs : List β) (i : ℕ), i < as.length → i < bs.length →
      (List.zipWith f as bs).getD i dc = f (as.getD i da) (bs.getD i db) := by
  intro as
  induction as with
  | nil => intro bs i ha _; exact absurd ha (by simp)
  | cons a as ih =>
      intro bs i ha hb
      cases bs with
      | nil => exact absurd hb (by simp)
      | cons b bs =>
          cases i with
          | zero => rfl
          | succ k =>
              exact ih bs k (Nat.lt_of_succ_lt_succ ha)
                (Nat.lt_of_succ_lt_succ hb)

/-- C4: in run_backtest, the strategy return at every date t+1 is the
position held at date t times the difference of the two one-period asset
returns from t to t+1, and the first date has no strategy return; in the
app.py variants, entry t of the strategy-return series (which starts at the
second date, the first being dropped) is the log-return difference over
(t, t+1) times the position at date t, and the series is one entry shorter
than the price series. Neither computation reads the position of its own
date: there is no look-ahead. -/
theorem c4_no_lookahead :
    (∀ (pos : List Int) (p1 p2 : List ℚ) (t : ℕ),
      pos.length = p1.length → pos.length = p2.length →
      t + 1 < pos.length →
      (stratReturns pos p1 p2).getD (t + 1) none =
        some ((pos.getD t 0 : ℚ) *
          ((p1.getD (t + 1) 0 / p1.getD t 0 - 1) -
           (p2.getD (t + 1) 0 / p2.getD t 0 - 1))) ∧
      (stratReturns pos p1 p2).getD 0 none = none) ∧
    (∀ (lg : ℚ → ℚ) (pA pB : List ℚ) (pos : List Int) (t : ℕ),
      pos.length = pA.length → pos.length = pB.length →
      t + 1 < pos.length →
      (appStratReturns lg pA pB pos).getD t 0 =
        (lg (pA.getD (t + 1) 0 / pA.getD t 0) -
         lg (pB.getD (t + 1) 0 / pB.getD t 0)) * (pos.getD t 0 : ℚ) ∧
      (appStratReturns lg pA pB pos).length = pA.length - 1) := by
  constructor
  · intro pos p1 p2 t h1 h2 ht
    refine ⟨?_, stratReturns_getD_zero pos p1 p2⟩
    unfold stratReturns
    rw [zipWith3_getD srCell none none none none _ _ _ (t + 1)
      (by rw [shift1_length]; exact ht)
      (by rw [pctChange_length, ← h1]; exact ht)
      (by rw [pctChange_length, ← h2]; exact ht)]
    rw [shift1_getD pos t ht, pctChange_getD p1 t (h1 ▸ ht),
      pctChange_getD p2 t (h2 ▸ ht)]
    show some _ = some _
    apply congrArg
    ring
  · intro lg pA pB pos t h1 h2 ht
    constructor
    · unfold appStratReturns
      rw [getD_zipWith (fun d (q : Int) => d * (q : ℚ)) 0 0 0 _ _ t
        (by rw [List.length_zipWith, logRets_length, logRets_length,
                ← h1, ← h2]; omega)
        (by rw [List.length_dropLast]; omega)]
      rw [getD_zipWith (fun x y => x - y) 0 0 0 _ _ t
        (by rw [logRets_length, ← h1]; omega)
        (by rw [logRets_length, ← h2]; omega)]
      rw [logRets_getD lg pA t (h1 ▸ ht), logRets_getD lg pB t (h2 ▸ ht),
        getD_dropLast pos t ht]
    · unfold appStratReturns
      rw [List.length_zipWith, List.length_zipWith, logRets_length,
        logRets_length, List.length_dropLast, ← h1, ← h2]
      omega

/-- Witness for C4 on a three-date pair: the date-1 strategy return uses
the date-0 position, the date-0 return is undefined, and the app.py series
has two entries. -/
theorem c4_no_lookahead_witness :
    ((stratReturns [1, -1, 0] [2, 4, 2] [1, 1, 1]).getD 1 none =
      some (((1 : Int) : ℚ) *
        (((4 : ℚ) / 2 - 1) - ((1 : ℚ) / 1 - 1))) ∧
     (stratReturns [1, -1, 0] [2, 4, 2] [1, 1, 1]).getD 0 none = none) ∧
    ((appStratReturns (fun q => q) [2, 4, 2] [1, 1, 1] [1, -1, 0]).getD 0 0 =
      ((fun q : ℚ => q) ((4 : ℚ) / 2) - (fun q : ℚ => q) ((1 : ℚ) / 1)) *
        ((1 : Int) : ℚ) ∧
     (appStratReturns (fun q => q) [2, 4, 2] [1, 1, 1] [1, -1, 0]).length =
       ([2, 4, 2] : List ℚ).length - 1) :=
  ⟨c4_no_lookahead.1 [1, -1, 0] [2, 4, 2] [1, 1, 1] 0 (by decide) (by decide)
    (by decide),
   c4_no_lookahead.2 (fun q => q) [2, 4, 2] [1, 1, 1] [1, -1, 0] 0
    (by decide) (by decide) (by decide)⟩

/-- The position loop emits one position per signal. -/
theorem positionsFrom_length :
    ∀ (ss : List Sig) (p : Int), (positionsFrom p ss).length = ss.length := by
  intro ss
  induction ss with
  | nil => intro p; rfl
  | cons s rest ih =>
      intro p
      show (positionsFrom (posStep p s) rest).length + 1 = _
      rw [ih]
      rfl

/-- The z-score series has one entry per row. -/
theorem zScores_length (sq : ℚ → ℚ) (w : ℕ) (l : List ℚ) :
    (zScores sq w l).length = l.length := by
  simp [zScores]

/-- The run_backtest position series has one entry per row. -/
theorem btPositions_length (sq : ℚ → ℚ) (rows : List (ℚ × ℚ))
    (entry exitZ : ℚ) :
    (btPositions sq rows entry exitZ).length = rows.length := by
  unfold btPositions btSignals btZ btRatios
  rw [positionsFrom_length, List.length_map, zScores_length,
    List.length_map]

/-- Splitting the strategy-return series of three nonempty inputs into its
undefined head and its pointwise-defined tail. -/
theorem stratReturns_cons (pos : List Int) (p1 p2 : List ℚ)
    (h1 : pos ≠ []) (h2 : p1 ≠ []) (h3 : p2 ≠ []) :
    stratReturns pos p1 p2 =
      none :: zipWith3 srCell (pos.dropLast.map some)
        ((p1.zip p1.tail).map (fun ab => some (ab.2 / ab.1 - 1)))
        ((p2.zip p2.tail).map (fun ab => some (ab.2 / ab.1 - 1))) := by
  obtain ⟨a, as, rfl⟩ := List.exists_cons_of_ne_nil h1
  obtain ⟨b, bs, rfl⟩ := List.exists_cons_of_ne_nil h2
  obtain ⟨c, cs, rfl⟩ := List.exists_cons_of_ne_nil h3
  rfl

/-- A three-way srCell zip of pointwise-defined series is pointwise
defined. -/
theorem zipWith3_srCell_isSome :
    ∀ (as : List (Option Int)) (bs cs : List (Option ℚ)),
      (∀ a ∈ as, a.isSome) → (∀ b ∈ bs, b.isSome) → (∀ c ∈ cs, c.isSome) →
      ∀ x ∈ zipWith3 srCell as bs cs, x.isSome := by
  intro as
  induction as with
  | nil => intro bs cs _ _ _ x hx; simp [zipWith3] at hx
  | cons a as ih =>
      intro bs cs ha hb hc x hx
      cases bs with
      | nil => simp [zipWith3] at hx
      | cons b bs =>
          cases cs with
          | nil => simp [zipWith3] at hx
          | cons c cs =>
              rcases List.mem_cons.mp hx with rfl | hx
              · obtain ⟨qa, ha0⟩ := Option.isSome_iff_exists.mp
                  (ha a (List.mem_cons_self a as))
                obtain ⟨qb, hb0⟩ := Option.isSome_iff_exists.mp
                  (hb b (List.mem_cons_self b bs))
                obtain ⟨qc, hc0⟩ := Option.isSome_iff_exists.mp
                  (hc c (List.mem_cons_self c cs))
                subst ha0
                subst hb0
                subst hc0
                rfl
              · exact ih bs cs
                  (fun v hv => ha v (List.mem_cons_of_mem a hv))
                  (fun v hv => hb v (List.mem_cons_of_mem b hv))
                  (fun v hv => hc v (List.mem_cons_of_mem c hv)) x hx

/-- Counting over a cons. -/
theorem countQ_cons (p : α → Bool) (x : α) (l : List α) :
    countQ p (x :: l) = (if p x then 1 else 0) + countQ p l := by
  unfold countQ
  rw [List.filter_cons]
  by_cases h : p x
  · rw [if_pos h, if_pos h, List.length_cons]
    omega
  · rw [if_neg (by simpa using h), if_neg h]
    omega

/-- Over a pointwise-defined series, counting an Option predicate equals
counting the corresponding value predicate over the extracted values. -/
theorem countQ_all_isSome (P : Option ℚ → Bool) (L : List (Option ℚ))
    (h : ∀ x ∈ L, x.isSome) :
    countQ P L = countQ (fun v => P (some v)) (L.filterMap id) := by
  induction L with
  | nil => rfl
  | cons x l ih =>
      obtain ⟨v, rfl⟩ := Option.isSome_iff_exists.mp
        (h x (List.mem_cons_self x l))
      rw [countQ_cons, List.filterMap_cons]
      show _ = countQ (fun v => P (some v)) (v :: l.filterMap id)
      rw [countQ_cons]
      rw [ih (fun y hy => h y (List.mem_cons_of_mem _ hy))]

/-- The tail of the strategy-return series of run_backtest on at least one
row is pointwise defined, and its head is undefined. -/
theorem btStratReturns_split (sq : ℚ → ℚ) (rows : List (ℚ × ℚ))
    (entry exitZ : ℚ) (h : rows ≠ []) :
    ∃ rest, btStratReturns sq rows entry exitZ = none :: rest ∧
      ∀ x ∈ rest, x.isSome := by
  have hpos : btPositions sq rows entry exitZ ≠ [] := by
    have hl := btPositions_length sq rows entry exitZ
    intro hnil
    rw [hnil] at hl
    exact h (List.length_eq_zero.mp hl.symm)
  have hr1 : rows.map (fun pr : ℚ × ℚ => pr.1) ≠ [] := by
    simpa using h
  have hr2 : rows.map (fun pr : ℚ × ℚ => pr.2) ≠ [] := by
    simpa using h
  refine ⟨_, stratReturns_cons _ _ _ hpos hr1 hr2, ?_⟩
  apply zipWith3_srCell_isSome
  · intro a ha
    rcases List.mem_map.mp ha with ⟨q, _, rfl⟩
    rfl
  · intro b hb
    rcases List.mem_map.mp hb with ⟨ab, _, rfl⟩
    rfl
  · intro c hc
    rcases List.mem_map.mp hc with ⟨ab, _, rfl⟩
    rfl

/-- C6 as amended: with at least 30 usable observations, the winRate of
run_backtest is count(strategyReturn > 0) divided by (1 + count of defined
nonzero strategy returns): the pandas comparison NaN != 0 holds, so the
undefined first-date return is counted in the denominator (and only
there); in particular winRate is 0 exactly when no defined return is
positive, and the denominator is never 0. -/
theorem c6_winrate_denominator (sq : ℚ → ℚ) (sqrt252 : ℚ)
    (rows : List (ℚ × ℚ)) (entry exitZ : ℚ) (h : 30 ≤ rows.length) :
    (runBacktest sq sqrt252 rows entry exitZ).winRate =
      (countQ (fun v => decide (0 < v))
          ((btStratReturns sq rows entry exitZ).filterMap id) : ℚ) /
      (1 + (countQ (fun v => decide (v ≠ 0))
          ((btStratReturns sq rows entry exitZ).filterMap id) : ℚ)) := by
  obtain ⟨rest, hsr, hrest⟩ := btStratReturns_split sq rows entry exitZ
    (by intro hnil; rw [hnil] at h; simp at h)
  unfold runBacktest
  rw [if_neg (by omega)]
  show (if 0 < countQ _ (btStratReturns sq rows entry exitZ) then _ else _)
      = _
  rw [hsr, countQ_cons, countQ_cons]
  show (if 0 < 1 + countQ _ rest then
      ((0 + countQ (fun o => match o with
        | some v => decide (0 < v)
        | none => false) rest : ℕ) : ℚ) /
      ((1 + countQ (fun o => match o with
        | some v => decide (v ≠ 0)
        | none => true) rest : ℕ) : ℚ) else 0) = _
  rw [if_pos (by omega)]
  rw [countQ_all_isSome _ rest hrest, countQ_all_isSome _ rest hrest]
  rw [List.filterMap_cons]
  dsimp only [id]
  push_cast
  ring_nf

/-- The ten-day ratio pattern for the C6 input: every ten consecutive
entries have mean 4 and sample variance 4, so the rolling standard
deviation is exactly 2 everywhere. -/
def patC6 : List ℚ := [7, 1, 7, 1, 4, 4, 4, 4, 4, 4]

/-- 40 rows of prices whose second asset is constant 1: the rolling window
is min(60, 40 / 4) = 10 and every window variance is 4, so the square root
parameter (fun _ => 2) models the floating-point square root exactly on
every value reached. -/
def rowsC6 : List (ℚ × ℚ) :=
  (patC6 ++ patC6 ++ patC6 ++ patC6).map (fun x => (x, 1))

/-- Witness for C6 as amended, at the 40-row input. -/
theorem c6_winrate_denominator_witness :
    (runBacktest (fun _ => 2) 1 rowsC6 1 (1/2)).winRate =
      (countQ (fun v => decide (0 < v))
          ((btStratReturns (fun _ => 2) rowsC6 1 (1/2)).filterMap id) : ℚ) /
      (1 + (countQ (fun v => decide (v ≠ 0))
          ((btStratReturns (fun _ => 2) rowsC6 1 (1/2)).filterMap id) : ℚ)) :=
  c6_winrate_denominator (fun _ => 2) 1 rowsC6 1 (1/2) (by decide)

/-- C6 counterexample: on the 40-row input the backtest has 12 defined
strategy returns that are all positive and nonzero, so the spec formula
count(> 0) / count(!= 0) gives 1, but run_backtest reports 12/13 because
the undefined first-date return satisfies the pandas test NaN != 0 and
inflates the denominator. -/
theorem c6_counterexample :
    (runBacktest (fun _ => 2) 1 rowsC6 1 (1/2)).winRate = 12/13 ∧
    specWinRate (btStratReturns (fun _ => 2) rowsC6 1 (1/2)) = 1 ∧
    (12/13 : ℚ) ≠ 1 := by
  refine ⟨by decide, by decide, by decide⟩

/-- idxmax returns none exactly on the empty series. -/
theorem idxmaxVal_eq_none (f : α → ℚ) (l : List α) :
    idxmaxVal f l = none ↔ l = [] := by
  cases l with
  | nil => simp [idxmaxVal]
  | cons x xs =>
      show (match idxmaxVal f xs with
        | none => some (0, f x)
        | some jm =>
            if f x < jm.2 then some (jm.1 + 1, jm.2)
            else some (0, f x)) = none ↔ (x :: xs) = []
      cases idxmaxVal f xs with
      | none => simp
      | some jm =>
          by_cases hf : f x < jm.2 <;> simp [hf]

/-- idxmax on a nonempty series returns the first index at which the
maximum value is attained. -/
theorem idxmaxVal_spec (f : α → ℚ) :
    ∀ (l : List α), l ≠ [] →
      ∃ i m, idxmaxVal f l = some (i, m) ∧ ∃ h : i < l.length,
        f (l.get ⟨i, h⟩) = m ∧
        (∀ j (hj : j < l.length), f (l.get ⟨j, hj⟩) ≤ m) ∧
        (∀ j (hj : j < l.length), j < i → f (l.get ⟨j, hj⟩) < m) := by
  intro l
  induction l with
  | nil => intro hne; exact absurd rfl hne
  | cons x xs ih =>
      intro _
      by_cases hxs : xs = []
      · subst hxs
        refine ⟨0, f x, rfl, Nat.zero_lt_one, rfl, ?_, ?_⟩
        · intro j hj
          cases j with
          | zero => exact le_refl _
          | succ k => simp at hj
        · intro j _ hj
          exact absurd hj (Nat.not_lt_zero j)
      · obtain ⟨i, m, heq, hlt, hval, hall, hfirst⟩ := ih hxs
        show ∃ i m, (match idxmaxVal f xs with
          | none => some (0, f x)
          | some jm =>
              if f x < jm.2 then some (jm.1 + 1, jm.2)
              else some (0, f x)) = some (i, m) ∧ _
        rw [heq]
        dsimp only
        by_cases hfx : f x < m
        · refine ⟨i + 1, m, by rw [if_pos hfx], Nat.succ_lt_succ hlt,
            ?_, ?_, ?_⟩
          · show f (xs.get ⟨i, hlt⟩) = m
            exact hval
          · intro j hj
            cases j with
            | zero => exact le_of_lt hfx
            | succ k =>
                show f (xs.get ⟨k, _⟩) ≤ m
                exact hall k (Nat.lt_of_succ_lt_succ hj)
          · intro j hj hji
            cases j with
            | zero => exact hfx
            | succ k =>
                show f (xs.get ⟨k, _⟩) < m
                exact hfirst k (Nat.lt_of_succ_lt_succ hj)
                  (Nat.lt_of_succ_lt_succ hji)
        · push_neg at hfx
          refine ⟨0, f x, by rw [if_neg (not_lt.mpr hfx)],
            Nat.succ_pos xs.length, rfl, ?_, ?_⟩
          · intro j hj
            cases j with
            | zero => exact le_refl _
            | succ k =>
                show f (xs.get ⟨k, _⟩) ≤ f x
                exact le_trans (hall k (Nat.lt_of_succ_lt_succ hj)) hfx
          · intro j _ hj
            exact absurd hj (Nat.not_lt_zero j)

/-- The enumerated grid of optimize_z_score is exactly the product pairs
with entry > exit, each with its own entry and exit recorded. -/
theorem optimizeZScore_grid (lg sq : ℚ → ℚ) (sqrt252 : ℚ)
    (pBase pOther : List ℚ) (zs : List ℚ) :
    (optimizeZScore lg sq sqrt252 pBase pOther zs).map
        (fun r => (r.entry, r.exitT)) =
      (gridPairs zs).filter (fun p => decide (p.2 < p.1)) := by
  unfold optimizeZScore
  generalize gridPairs zs = L
  induction L with
  | nil => rfl
  | cons p ps ih =>
      rw [List.filterMap_cons, List.filter_cons]
      by_cases hp : p.1 ≤ p.2
      · rw [if_pos hp]
        have : decide (p.2 < p.1) = false := by
          simpa using not_lt.mpr hp
        rw [this]
        show _ = List.filter _ ps
        exact ih
      · rw [if_neg hp]
        have : decide (p.2 < p.1) = true := by
          simpa using lt_of_not_le hp
        rw [this]
        show (_, _) :: _ = p :: List.filter _ ps
        rw [ih]
        rfl

/-- The outer-then-inner enumeration over a strictly ascending candidate
list is strictly ascending in the lexicographic (entry, exit) order. -/
theorem flatMap_pairs_pairwise (outer ys : List ℚ)
    (ho : outer.Pairwise (· < ·)) (hy : ys.Pairwise (· < ·)) :
    (outer.flatMap (fun e => ys.map (fun x => (e, x)))).Pairwise lexLt := by
  induction outer with
  | nil => simp
  | cons e rest ih =>
      rw [List.flatMap_cons]
      rcases List.pairwise_cons.mp ho with ⟨hhead, htail⟩
      apply List.pairwise_append.mpr
      refine ⟨?_, ih htail, ?_⟩
      · rw [List.pairwise_map]
        exact hy.imp (fun hxy => Or.inr ⟨rfl, hxy⟩)
      · intro p hp q hq
        rcases List.mem_map.mp hp with ⟨xv, _, rfl⟩
        rcases List.mem_flatMap.mp hq with ⟨ev, hev, hq2⟩
        rcases List.mem_map.mp hq2 with ⟨yv, _, rfl⟩
        exact Or.inl (hhead ev hev)

/-- C5: optimize_z_score enumerates exactly the ordered (entry, exit)
pairs of the candidate set with entry > exit (rejecting entry <= exit); if
the candidate list is strictly ascending, the enumeration is strictly
ascending in (entry, then exit); and the idxmax selection used by main
picks the first enumerated configuration attaining the maximum Sharpe
ratio, so ties go to the earliest enumerated (smallest entry, then
smallest exit) configuration. -/
theorem c5_threshold_optimizer (lg sq : ℚ → ℚ) (sqrt252 : ℚ)
    (pBase pOther zs : List ℚ) (hz : zs.Pairwise (· < ·)) :
    ((optimizeZScore lg sq sqrt252 pBase pOther zs).map
        (fun r => (r.entry, r.exitT)) =
      (gridPairs zs).filter (fun p => decide (p.2 < p.1))) ∧
    ((optimizeZScore lg sq sqrt252 pBase pOther zs).map
        (fun r => (r.entry, r.exitT))).Pairwise lexLt ∧
    (optimizeZScore lg sq sqrt252 pBase pOther zs ≠ [] →
      ∃ i m, idxmaxVal (fun r => r.sharpe)
          (optimizeZScore lg sq sqrt252 pBase pOther zs) = some (i, m) ∧
        ∃ h : i < (optimizeZScore lg sq sqrt252 pBase pOther zs).length,
          ((optimizeZScore lg sq sqrt252 pBase pOther zs).get
            ⟨i, h⟩).sharpe = m ∧
          (∀ j (hj : j <
              (optimizeZScore lg sq sqrt252 pBase pOther zs).length),
            ((optimizeZScore lg sq sqrt252 pBase pOther zs).get
              ⟨j, hj⟩).sharpe ≤ m) ∧
          (∀ j (hj : j <
              (optimizeZScore lg sq sqrt252 pBase pOther zs).length),
            j < i →
            ((optimizeZScore lg sq sqrt252 pBase pOther zs).get
              ⟨j, hj⟩).sharpe < m)) := by
  refine ⟨optimizeZScore_grid lg sq sqrt252 pBase pOther zs, ?_, ?_⟩
  · rw [optimizeZScore_grid lg sq sqrt252 pBase pOther zs]
    exact List.Pairwise.sublist (List.filter_sublist _)
      (flatMap_pairs_pairwise zs zs hz hz)
  · intro hne
    exact idxmaxVal_spec (fun r => r.sharpe) _ hne

/-- Witness for C5 on the ascending candidate set [1/2, 1, 2] and a
three-date price pair. -/
theorem c5_threshold_optimizer_witness :
    ([1/2, 1, 2] : List ℚ).Pairwise (· < ·) ∧
    (((optimizeZScore (fun q => q) (fun q => q) 1 [1, 2, 4] [1, 1, 1]
        [1/2, 1, 2]).map (fun r => (r.entry, r.exitT)) =
      (gridPairs [1/2, 1, 2]).filter (fun p => decide (p.2 < p.1))) ∧
     ((optimizeZScore (fun q => q) (fun q => q) 1 [1, 2, 4] [1, 1, 1]
        [1/2, 1, 2]).map (fun r => (r.entry, r.exitT))).Pairwise lexLt ∧
     (optimizeZScore (fun q => q) (fun q => q) 1 [1, 2, 4] [1, 1, 1]
        [1/2, 1, 2] ≠ [] →
      ∃ i m, idxmaxVal (fun r => r.sharpe)
          (optimizeZScore (fun q => q) (fun q => q) 1 [1, 2, 4] [1, 1, 1]
            [1/2, 1, 2]) = some (i, m) ∧
        ∃ h : i < (optimizeZScore (fun q => q) (fun q => q) 1 [1, 2, 4]
            [1, 1, 1] [1/2, 1, 2]).length,
          ((optimizeZScore (fun q => q) (fun q => q) 1 [1, 2, 4] [1, 1, 1]
            [1/2, 1, 2]).get ⟨i, h⟩).sharpe = m ∧
          (∀ j (hj : j < (optimizeZScore (fun q => q) (fun q => q) 1
              [1, 2, 4] [1, 1, 1] [1/2, 1, 2]).length),
            ((optimizeZScore (fun q => q) (fun q => q) 1 [1, 2, 4]
              [1, 1, 1] [1/2, 1, 2]).get ⟨j, hj⟩).sharpe ≤ m) ∧
          (∀ j (hj : j < (optimizeZScore (fun q => q) (fun q => q) 1
              [1, 2, 4] [1, 1, 1] [1/2, 1, 2]).length),
            j < i →
            ((optimizeZScore (fun q => q) (fun q => q) 1 [1, 2, 4]
              [1, 1, 1] [1/2, 1, 2]).get ⟨j, hj⟩).sharpe < m))) :=
  ⟨by decide,
   c5_threshold_optimizer (fun q => q) (fun q => q) 1 [1, 2, 4] [1, 1, 1]
     [1/2, 1, 2] (by decide)⟩

end PairTrading
